import Mathlib

/-
Verification of the task-detection and state-reconstruction engine of the
rmc-oc pull-request review action.

The definitions below are shallow embeddings of the TypeScript sources:
  - src/src/github/state.ts            (StateManager: cache restore, rebuild,
                                        concession detection, thread upserts)
  - src/src/opencode/session-activity-tracker.ts  (loop detection)
  - src/unnamed/part_003               (OpenCodeClientImpl.waitForPromptCompletion)
  - src/unnamed/part_008               (TaskDetector: question detection,
                                        mention gating, question hashing)
  - src/src/task/orchestrator.ts       (TaskOrchestrator.execute / executeTask)
  - src/src/execution/orchestrator.ts  (ReviewExecutor.addThread mirror)
JavaScript strings are modelled as List Char, 32-bit integer arithmetic as
Int with explicit wrapping, thrown exceptions as Except, and asynchronous
call outcomes as explicit parameters.
-/

/-- The backtick character, written by code so that no backtick appears in
plain code text. -/
def btick : Char := Char.ofNat 96

/-- True when a character is not a backtick. -/
def notBtick (c : Char) : Bool := !(c == btick)

/-- JavaScript whitespace class as used by the regexes in the sources,
restricted to the whitespace characters that occur in comment bodies
(space, tab, newline, carriage return). -/
def isWsJs (c : Char) : Bool :=
  c == ' ' || c == '\t' || c == '\n' || c == '\r'

/-- ASCII lowering, the fragment of JavaScript toLowerCase used on the
ASCII comment bodies the sources hash and scan. -/
def jsToLowerChar (c : Char) : Char :=
  if 65 ≤ c.toNat && c.toNat ≤ 90 then Char.ofNat (c.toNat + 32) else c

/-- JavaScript String.prototype.trim on the modelled whitespace class. -/
def jsTrim (l : List Char) : List Char :=
  ((l.dropWhile isWsJs).reverse.dropWhile isWsJs).reverse

/-- Boolean prefix test on character lists. -/
def isPrefixOfB : List Char → List Char → Bool
  | [], _ => true
  | _ :: _, [] => false
  | a :: as, b :: bs => a == b && isPrefixOfB as bs

/-- JavaScript String.prototype.includes: substring containment. -/
def containsSub (pat : List Char) : List Char → Bool
  | [] => pat.isEmpty
  | x :: xs => isPrefixOfB pat (x :: xs) || containsSub pat xs

/-- JavaScript String.prototype.replace with a string pattern and empty
replacement: removes the first occurrence of the pattern. -/
def replaceFirst (pat : List Char) : List Char → List Char
  | [] => []
  | x :: xs =>
    if isPrefixOfB pat (x :: xs) then (x :: xs).drop pat.length
    else x :: replaceFirst pat xs

/-- All start indices at which a pattern occurs in a list, used to state
where a bot mention occurs inside a comment body. -/
def occurrenceIdxs (pat l : List Char) : List Nat :=
  (List.range (l.length + 1)).filter (fun i => isPrefixOfB pat (l.drop i))

/-- Three consecutive backticks: the fenced-code delimiter. -/
def fence3 : List Char := [btick, btick, btick]

/-- Whether a position (the head of the list) starts a fenced-code
delimiter. -/
def isFenceAt : List Char → Bool
  | a :: b :: c :: _ => a == btick && b == btick && c == btick
  | _ => false

/-- Scan for the first closing fence; returns the remainder after it.
Mirrors the lazy part of the regex of containsBotMentionOutsideCodeBlocks
in src/unnamed/part_008: the match closes at the first later fence. -/
def findClose : List Char → Option (List Char)
  | [] => none
  | x :: xs => if isFenceAt (x :: xs) then some (xs.drop 2) else findClose xs

/-- At a position starting with character x followed by xs: if a fenced
block opens and closes here, return the text after the whole match. -/
def fenceJump (x : Char) (xs : List Char) : Option (List Char) :=
  if isFenceAt (x :: xs) then findClose (xs.drop 2) else none

/-- Global removal of fenced code blocks, the JavaScript
body.replace of the triple-backtick regex with the empty string in
src/unnamed/part_008.  Fuel-indexed so the scan is structural; the fuel is
always instantiated with the length of the input, which suffices because
every step consumes at least one character. -/
def removeFencedAux : Nat → List Char → List Char
  | 0, l => l
  | _ + 1, [] => []
  | fuel + 1, x :: xs =>
    match fenceJump x xs with
    | some rem => removeFencedAux fuel rem
    | none => x :: removeFencedAux fuel xs

/-- Removal of all fenced code blocks from a comment body. -/
def removeFenced (l : List Char) : List Char := removeFencedAux l.length l

/-- At a position whose head is a backtick and whose tail is xs: if an
inline code span (one or more non-backticks then a backtick) matches,
return the text after the whole match. -/
def inlineJump (xs : List Char) : Option (List Char) :=
  let run := xs.takeWhile notBtick
  let rest := xs.dropWhile notBtick
  if run.isEmpty || rest.isEmpty then none else some (rest.drop 1)

/-- Global removal of inline code spans, the JavaScript replace of the
inline-code regex with the empty string in src/unnamed/part_008.
Fuel-indexed exactly like removeFencedAux. -/
def removeInlineAux : Nat → List Char → List Char
  | 0, l => l
  | _ + 1, [] => []
  | fuel + 1, x :: xs =>
    if x == btick then
      match inlineJump xs with
      | some rem => removeInlineAux fuel rem
      | none => x :: removeInlineAux fuel xs
    else x :: removeInlineAux fuel xs

/-- Removal of all inline code spans from a comment body. -/
def removeInline (l : List Char) : List Char := removeInlineAux l.length l

/-- The long bot mention, from src/unnamed/part_007 (config constants). -/
def botMention : List Char := "@review-my-code-bot".data

/-- The short bot mention, from src/unnamed/part_007. -/
def botMentionShort : List Char := "@rmc-bot".data

/-- BOT_MENTIONS from src/unnamed/part_007. -/
def BOT_MENTIONS : List (List Char) := [botMention, botMentionShort]

/-- BOT_USERS from src/unnamed/part_007. -/
def BOT_USERS : List (List Char) :=
  ["github-actions[bot]".data, "opencode-reviewer[bot]".data]

/-- containsBotMentionOutsideCodeBlocks from src/unnamed/part_008: strip
fenced blocks, then inline code, then look for any bot mention. -/
def containsBotMentionOutsideCodeBlocks (body : List Char) : Bool :=
  BOT_MENTIONS.any (fun m => containsSub m (removeInline (removeFenced body)))

/-- removeBotMentions from src/unnamed/part_008: remove the first
occurrence of each configured mention, then trim. -/
def removeBotMentions (text : List Char) : List Char :=
  jsTrim (BOT_MENTIONS.foldl (fun acc m => replaceFirst m acc) text)

/-- Wrap an integer to the signed 32-bit range, the effect of the
JavaScript bitwise coercions in the hash loops. -/
def toInt32 (n : Int) : Int := (n + 2147483648) % 4294967296 - 2147483648

/-- One step of the rolling hash shared by hashQuestionText
(src/unnamed/part_008) and generateCacheKey (src/src/github/state.ts):
hash = (hash << 5) - hash + charCode, coerced to a 32-bit integer. -/
def hashStep (h : Int) (c : Char) : Int :=
  toInt32 (toInt32 (h * 32) - h + c.toNat)

/-- The 32-bit integer value of hashQuestionText before rendering:
the text is lowered and trimmed, then folded with hashStep from 0. -/
def hashQuestionTextInt (text : List Char) : Int :=
  (jsTrim (text.map jsToLowerChar)).foldl hashStep 0

/-- JavaScript Number.prototype.toString(16) on 32-bit integers. -/
def toStringBase16 (n : Int) : List Char :=
  if n < 0 then '-' :: Nat.toDigits 16 n.natAbs else Nat.toDigits 16 n.toNat

/-- hashQuestionText from src/unnamed/part_008. -/
def hashQuestionText (text : List Char) : List Char :=
  toStringBase16 (hashQuestionTextInt text)

/-- Opening tag of the status-block fence, from the rmcoc regex recorded
at src/__tests__/task-info.test.ts line 578 for src/state/serializer.ts. -/
def rmcocOpen : List Char := "```rmcoc".data

/-- Opening tag of the json fence used by
StateManager.extractAssessmentFromComment in src/src/github/state.ts. -/
def jsonOpen : List Char := "```json".data

/-- A newline directly followed by a closing fence. -/
def nlFence : List Char := '\n' :: fence3

/-- The opening-brace character, written by code so that no brace appears
in plain code text. -/
def lbrace : Char := Char.ofNat 123

/-- The closing-brace character. -/
def rbrace : Char := Char.ofNat 125

/-- The suffixes following each newline of a whitespace run, ordered from
the last newline to the first: the order in which the greedy whitespace
loop of the rmcoc regex tries the mandatory newline. -/
def newlineTails : List Char → List (List Char)
  | [] => []
  | x :: xs => newlineTails xs ++ (if x == '\n' then [xs] else [])

/-- First successful application of a candidate function over a list of
candidates. -/
def firstSome : List (List Char) → (List Char → Option (List Char)) → Option (List Char)
  | [], _ => none
  | x :: xs, f =>
    match f x with
    | some r => some r
    | none => firstSome xs f

/-- Content before the first newline-then-fence, the lazy close of the
rmcoc regex: the captured block requires a newline directly before the
closing fence. -/
def findCloseNl : List Char → Option (List Char)
  | [] => none
  | x :: xs =>
    if isPrefixOfB nlFence (x :: xs) then some []
    else (findCloseNl xs).map (fun r => x :: r)

/-- Content before the first close of the spec-amended rmcoc regex, in
which the newline before the closing fence is optional. -/
def findCloseOptNl : List Char → Option (List Char)
  | [] => none
  | x :: xs =>
    if isPrefixOfB fence3 (x :: xs) then some []
    else if isPrefixOfB nlFence (x :: xs) then some []
    else (findCloseOptNl xs).map (fun r => x :: r)

/-- Match of the recorded rmcoc regex at one position: the opening tag,
a whitespace run containing a mandatory newline, then a lazily captured
body closed by a newline directly followed by a fence. -/
def matchRmcocAt (l : List Char) : Option (List Char) :=
  if isPrefixOfB rmcocOpen l then
    let rest := l.drop rmcocOpen.length
    let ws := rest.takeWhile isWsJs
    let after := rest.dropWhile isWsJs
    firstSome (newlineTails ws) (fun wsTail => findCloseNl (wsTail ++ after))
  else none

/-- Match of the spec-amended rmcoc regex at one position. -/
def matchRmcocSpecAt (l : List Char) : Option (List Char) :=
  if isPrefixOfB rmcocOpen l then
    let rest := l.drop rmcocOpen.length
    let ws := rest.takeWhile isWsJs
    let after := rest.dropWhile isWsJs
    firstSome (newlineTails ws) (fun wsTail => findCloseOptNl (wsTail ++ after))
  else none

/-- Modelled from the spec and from the regex recorded verbatim at
src/__tests__/task-info.test.ts line 578: the raw capture of the rmcoc
status-block extraction of src/state/serializer.ts, which is absent from
src/.  The scan tries every start position from the left. -/
def extractRmcocRaw : List Char → Option (List Char)
  | [] => none
  | x :: xs =>
    match matchRmcocAt (x :: xs) with
    | some cap => some cap
    | none => extractRmcocRaw xs

/-- Modelled from the spec: the same extraction with the spec edge-case
policy applied, the trailing newline before the closing fence optional. -/
def extractRmcocRawSpec : List Char → Option (List Char)
  | [] => none
  | x :: xs =>
    match matchRmcocSpecAt (x :: xs) with
    | some cap => some cap
    | none => extractRmcocRawSpec xs

/-- Lazy capture of a brace-delimited object closed by optional whitespace
and a fence: the capture group of the json regex of
StateManager.extractAssessmentFromComment. -/
def captureToRBrace : List Char → Option (List Char)
  | [] => none
  | x :: xs =>
    if x == rbrace && isPrefixOfB fence3 (xs.dropWhile isWsJs) then some [x]
    else (captureToRBrace xs).map (fun r => x :: r)

/-- Match of the json-assessment regex at one position: the opening tag,
optional whitespace, then a braced object closed by optional whitespace
and a fence. -/
def matchJsonAt (l : List Char) : Option (List Char) :=
  if isPrefixOfB jsonOpen l then
    let rest := (l.drop jsonOpen.length).dropWhile isWsJs
    match rest with
    | [] => none
    | x :: _ => if x == lbrace then captureToRBrace rest else none
  else none

/-- Raw capture of the json regex of
StateManager.extractAssessmentFromComment in src/src/github/state.ts. -/
def extractJsonRaw : List Char → Option (List Char)
  | [] => none
  | x :: xs =>
    match matchJsonAt (x :: xs) with
    | some cap => some cap
    | none => extractJsonRaw xs

/-- The finding/assessment/score record parsed out of a review comment,
from src/src/github/state.ts. -/
structure Assessment where
  finding : List Char
  assessment : List Char
  score : Int
deriving DecidableEq

/-- The fallback assessment returned by extractAssessmentFromComment when
no valid block is found: finding "Unknown issue", the first 200 characters
of the body, and the neutral score 5. -/
def defaultAssessment (body : List Char) : Assessment :=
  { finding := "Unknown issue".data, assessment := body.take 200, score := 5 }

/-- StateManager.extractAssessmentFromComment from src/src/github/state.ts.
The JSON.parse step together with its field checks is abstracted into the
parameter pj, which returns the parsed record when the captured text is
valid JSON carrying the three fields, and none when parsing throws. -/
def extractAssessmentFromComment (pj : List Char → Option Assessment)
    (body : List Char) : Assessment :=
  match extractJsonRaw body with
  | some cap =>
    match pj cap with
    | some parsed =>
      if !parsed.finding.isEmpty && !parsed.assessment.isEmpty then parsed
      else defaultAssessment body
    | none => defaultAssessment body
  | none => defaultAssessment body

/-- JavaScript a || b on optional numbers, where 0 is falsy: used for
comment.line || comment.original_line || 1. -/
def jsOrNat (x : Option Nat) (y : Nat) : Nat :=
  match x with
  | some n => if n == 0 then y else n
  | none => y

/-- JavaScript a || b on optional strings, where the empty string is
falsy: used for comment.user?.login || 'unknown'. -/
def jsOrList (x : Option (List Char)) (y : List Char) : List Char :=
  match x with
  | some s => if s.isEmpty then y else s
  | none => y

/-- Thread status across the two state managers; src/src/github/state.ts
uses the first three constructors, src/src/execution/orchestrator.ts adds
ESCALATED. -/
inductive ThreadStatus
  | PENDING
  | RESOLVED
  | DISPUTED
  | ESCALATED
deriving DecidableEq

/-- The original_comment record of a review thread. -/
structure OriginalComment where
  author : List Char
  body : List Char
  timestamp : List Char
deriving DecidableEq

/-- ReviewThread from src/src/github/state.ts.  The id String(comment.id)
is modelled as the numeric comment id, which the stringification maps to
injectively. -/
structure ReviewThread where
  id : Nat
  file : List Char
  line : Nat
  status : ThreadStatus
  score : Int
  assessment : Assessment
  original_comment : OriginalComment
deriving DecidableEq

/-- PassResult from src/src/github/state.ts. -/
structure PassResult where
  number : Nat
  summary : List Char
  completed : Bool
  has_blocking_issues : Bool
deriving DecidableEq

/-- The created_at/updated_at metadata of a ReviewState. -/
structure StateMetadata where
  created_at : List Char
  updated_at : List Char
deriving DecidableEq

/-- ReviewState from src/src/github/state.ts, the reconstructed process
state for one pull request. -/
structure ReviewState where
  version : Nat
  prNumber : Nat
  lastCommitSha : List Char
  threads : List ReviewThread
  passes : List PassResult
  metadata : StateMetadata
deriving DecidableEq

/-- One review comment as returned by the GitHub API and consumed by
rebuildStateFromComments. -/
structure ReviewComment where
  id : Nat
  in_reply_to_id : Option Nat
  path : List Char
  line : Option Nat
  original_line : Option Nat
  user_login : Option (List Char)
  body : List Char
  created_at : List Char
deriving DecidableEq

/-- STATE_SCHEMA_VERSION from src/src/github/state.ts. -/
def STATE_SCHEMA_VERSION : Nat := 1

/-- The per-comment step of rebuildStateFromComments: replies are skipped,
the assessment is extracted, and a thread is materialized unless the
finding is empty or the score is the default 5. -/
def commentToThread (pj : List Char → Option Assessment)
    (c : ReviewComment) : Option ReviewThread :=
  if c.in_reply_to_id.isSome then none
  else
    let assessment := extractAssessmentFromComment pj c.body
    if assessment.finding.isEmpty || assessment.score == 5 then none
    else some
      { id := c.id
        file := c.path
        line := jsOrNat c.line (jsOrNat c.original_line 1)
        status := ThreadStatus.PENDING
        score := assessment.score
        assessment := assessment
        original_comment :=
          { author := jsOrList c.user_login "unknown".data
            body := c.body
            timestamp := c.created_at } }

/-- StateManager.rebuildStateFromComments from src/src/github/state.ts.
The fetched pull-request head sha and the fetched review comments are
inputs; now is the wall-clock reading used for the metadata timestamps. -/
def rebuildStateFromComments (pj : List Char → Option Assessment)
    (prNumber : Nat) (headSha : List Char)
    (reviewComments : List ReviewComment) (now : List Char) : ReviewState :=
  { version := STATE_SCHEMA_VERSION
    prNumber := prNumber
    lastCommitSha := headSha
    threads := reviewComments.filterMap (commentToThread pj)
    passes := []
    metadata := { created_at := now, updated_at := now } }

/-- StateManager.isVersionCompatible from src/src/github/state.ts. -/
def isVersionCompatible (v : Nat) : Bool := v == STATE_SCHEMA_VERSION

/-- StateManager.validateState from src/src/github/state.ts: the version
must be compatible, the pull-request number must match the configuration,
and metadata.created_at must be truthy.  The structural array and object
checks of the source hold by typing. -/
def validateState (cfgPrNumber : Nat) (s : ReviewState) : Bool :=
  isVersionCompatible s.version && s.prNumber == cfgPrNumber
    && !s.metadata.created_at.isEmpty

/-- StateManager.restoreState from src/src/github/state.ts.  The cache
parameter is the state recovered from the GitHub Actions cache and parsed
from disk, or none when the cache misses or any step throws; a recovered
state is returned only if it validates. -/
def restoreState (cfgPrNumber : Nat) (cache : Option ReviewState) :
    Option ReviewState :=
  match cache with
  | none => none
  | some s => if validateState cfgPrNumber s then some s else none

/-- StateManager.getOrCreateState from src/src/github/state.ts: restore
from the cache first, and rebuild from the review comments only when the
restore yields nothing. -/
def getOrCreateState (pj : List Char → Option Assessment)
    (cfgPrNumber : Nat) (cache : Option ReviewState) (headSha : List Char)
    (reviewComments : List ReviewComment) (now : List Char) : ReviewState :=
  match restoreState cfgPrNumber cache with
  | some s => s
  | none => rebuildStateFromComments pj cfgPrNumber headSha reviewComments now

/-- MAX_REPEATED_TOOL_CALLS from
src/src/opencode/session-activity-tracker.ts. -/
def MAX_REPEATED_TOOL_CALLS : Nat := 5

/-- LOOP_DETECTION_WINDOW from
src/src/opencode/session-activity-tracker.ts. -/
def LOOP_DETECTION_WINDOW : Nat := 10

/-- The push-then-shift window update of SessionActivityTracker.detectLoop:
append the new call and drop the oldest when the window exceeds its
capacity. -/
def slideWindow (recent : List String) (c : String) : List String :=
  let r1 := recent ++ [c]
  if LOOP_DETECTION_WINDOW < r1.length then r1.drop 1 else r1

/-- The size of the JavaScript Set built from a list: the number of
distinct elements, accumulated in insertion order. -/
def distinctCount (l : List String) : Nat :=
  (l.foldl (fun acc x => if x ∈ acc then acc else acc ++ [x]) []).length

/-- SessionActivityTracker.detectLoop from
src/src/opencode/session-activity-tracker.ts (the identical code also
appears in src/unnamed/part_003): returns the updated window and whether a
loop was detected, either by one signature repeating at least
MAX_REPEATED_TOOL_CALLS times in the window, or by the most recent
MAX_REPEATED_TOOL_CALLS calls holding at most two distinct signatures. -/
def detectLoopStep (recent : List String) (toolCall : String) :
    List String × Bool :=
  let r2 := slideWindow recent toolCall
  if r2.length < MAX_REPEATED_TOOL_CALLS then (r2, false)
  else if r2.any (fun call => MAX_REPEATED_TOOL_CALLS ≤ r2.count call) then
    (r2, true)
  else
    let recentCalls := r2.drop (r2.length - MAX_REPEATED_TOOL_CALLS)
    if distinctCount recentCalls ≤ 2
        && MAX_REPEATED_TOOL_CALLS ≤ recentCalls.length then
      (r2, true)
    else (r2, false)

/-- Run detectLoop over a sequence of tool-call signatures from a given
window, reporting whether any call triggered detection; the session is
aborted at the first detection. -/
def runDetectLoopFrom (recent : List String) : List String → Bool
  | [] => false
  | c :: cs =>
    let s := detectLoopStep recent c
    s.2 || runDetectLoopFrom s.1 cs

/-- Run detectLoop over a sequence of tool-call signatures starting from
the reset (empty) window. -/
def runDetectLoop (calls : List String) : Bool := runDetectLoopFrom [] calls

/-- The concession phrase list of StateManager.detectConcessionFallback in
src/src/github/state.ts. -/
def concessionPhrases : List (List Char) :=
  ["you are correct".data, "i concede".data, "you're right".data,
   "fair point".data, "good catch".data, "agreed".data, "makes sense".data]

/-- StateManager.detectConcessionFallback from src/src/github/state.ts:
the lowered body contains one of the concession phrases. -/
def detectConcessionFallback (body : List Char) : Bool :=
  concessionPhrases.any (fun p => containsSub p (body.map jsToLowerChar))

/-- StateManager.detectConcession from src/src/github/state.ts, for one
call with a cold sentiment cache.  The outcome of the awaited
analyzeCommentSentiment call is the apiResult parameter: ok b when the
LLM call returned a verdict (including the parse default false), and
error e when the fetch or response handling threw. -/
def detectConcession (apiResult : Except (List Char) Bool)
    (body : List Char) : Bool :=
  match apiResult with
  | .ok verdict => verdict
  | .error _ => detectConcessionFallback body

/-- Modelled from the spec: the decoded status block of a comment.  The
Block Codec (src/state/serializer.ts) is absent from src/; each comment
below carries the block its body decodes to, with the discriminators and
fields that TaskDetector.detectPendingQuestions inspects. -/
inductive RmcocBlock
  | question (status : List Char)
  | questionAnswer (replyToCommentId : Option Nat)
      (questionHash : Option (List Char))
  | manualPrReview
  | finding
  | autoReviewTrigger
deriving DecidableEq

/-- One issue comment as consumed by detectPendingQuestions: its id, the
author login (empty models an absent login), the raw body, and its decoded
status block. -/
structure IssueComment where
  id : Nat
  author : List Char
  body : List Char
  block : Option RmcocBlock
deriving DecidableEq

/-- The closed intent set of the Intent Classifier. -/
inductive Intent
  | question
  | reviewRequest
  | other
deriving DecidableEq

/-- The question-answering task payload produced by
detectPendingQuestions, restricted to the fields the detection logic
computes from the comment itself (conversation history and the
fresh-analysis flag are built from the same inputs and are orthogonal to
emission). -/
structure QuestionTask where
  commentId : Nat
  question : List Char
  questionHash : List Char
  author : List Char
deriving DecidableEq

/-- Membership of a comment id in the answeredQuestionIds set of
detectPendingQuestions: some comment carries a question-answer block whose
reply_to_comment_id is this id. -/
def isAnswered (comments : List IssueComment) (cid : Nat) : Bool :=
  comments.any (fun c =>
    match c.block with
    | some (RmcocBlock.questionAnswer (some rid) _) => rid == cid
    | _ => false)

/-- The answeredQuestionHashes map of detectPendingQuestions at one key:
built by iterating all comments and letting later entries overwrite
earlier ones, keyed by reply_to_comment_id, keeping question_hash. -/
def answeredHashFor (comments : List IssueComment) (cid : Nat) :
    Option (List Char) :=
  comments.foldl (fun acc c =>
    match c.block with
    | some (RmcocBlock.questionAnswer (some rid) (some h)) =>
      if rid == cid then some h else acc
    | _ => acc) none

/-- Whether a decoded block marks its own comment as an answered
question. -/
def isAnsweredQuestionBlock : Option RmcocBlock → Bool
  | some (RmcocBlock.question status) => status == "ANSWERED".data
  | _ => false

/-- Whether a decoded block marks its comment as a manual review
request. -/
def isManualReviewBlock : Option RmcocBlock → Bool
  | some RmcocBlock.manualPrReview => true
  | _ => false

/-- The per-comment body of the detectPendingQuestions loop in
src/unnamed/part_008, in source order: skip bot authors, require a mention
outside code spans, skip comments whose own block is an answered question,
skip answered questions whose current hash matches the recorded hash (or
that have no recorded hash), skip manual review requests, skip empty
questions, then classify and emit. -/
def shouldEmitQuestion (comments : List IssueComment)
    (intent : List Char → Intent) (c : IssueComment) : Option QuestionTask :=
  if BOT_USERS.any (fun u => u == c.author) then none
  else if !containsBotMentionOutsideCodeBlocks c.body then none
  else if isAnsweredQuestionBlock c.block then none
  else if isAnswered comments c.id
      && (match answeredHashFor comments c.id with
          | none => true
          | some h => hashQuestionText (removeBotMentions c.body) == h) then
    none
  else if isManualReviewBlock c.block then none
  else if (removeBotMentions c.body).isEmpty then none
  else
    match intent (removeBotMentions c.body) with
    | Intent.question => some
      { commentId := c.id
        question := removeBotMentions c.body
        questionHash := hashQuestionText (removeBotMentions c.body)
        author := jsOrList (some c.author) "unknown".data }
    | _ => none

/-- TaskDetector.detectPendingQuestions from src/unnamed/part_008: the
loop over all issue comments, pushing a task per emitting comment. -/
def detectPendingQuestions (comments : List IssueComment)
    (intent : List Char → Intent) : List QuestionTask :=
  comments.filterMap (shouldEmitQuestion comments intent)

/-- The task discriminator of the task orchestrator. -/
inductive TaskType
  | disputeResolution
  | questionAnswering
  | fullReview
deriving DecidableEq

/-- A task as consumed by TaskOrchestrator.execute, restricted to the
fields the loop reads: its type and, for reviews, whether it affects the
merge gate.  Named OrchTask because Task is taken by the Lean core. -/
structure OrchTask where
  type : TaskType
  affectsMergeGate : Bool
deriving DecidableEq

/-- TaskResult from the task orchestrator types. -/
structure TaskResult where
  type : TaskType
  success : Bool
  issuesFound : Nat
  blockingIssues : Nat
  error : Option (List Char)
deriving DecidableEq

/-- One step of the execution loop: the task, the outcome of its inner
handler (ok with its result, or error with the thrown message), and the
executor state visible through reviewExecutor.getState() at that moment. -/
structure TaskStep where
  task : OrchTask
  outcome : Except (List Char) TaskResult
  stateAtFailure : Option ReviewState

/-- The active (non-RESOLVED) threads of an optional executor state, as
filtered in the catch branch of TaskOrchestrator.executeTask. -/
def activeThreadsOf (state : Option ReviewState) : List ReviewThread :=
  match state with
  | some st => st.threads.filter (fun t => !(t.status == ThreadStatus.RESOLVED))
  | none => []

/-- TaskOrchestrator.executeTask from src/src/task/orchestrator.ts: a
thrown error is converted into a failed TaskResult carrying the counts of
active and blocking threads of the current state. -/
def executeTask (task : OrchTask) (outcome : Except (List Char) TaskResult)
    (state : Option ReviewState) (blockingThreshold : Int) : TaskResult :=
  match outcome with
  | .ok r => r
  | .error e =>
    let activeThreads := activeThreadsOf state
    { type := task.type
      success := false
      issuesFound := activeThreads.length
      blockingIssues :=
        (activeThreads.filter (fun t => blockingThreshold ≤ t.score)).length
      error := some e }

/-- ExecutionResult from the task orchestrator types. -/
structure ExecutionResult where
  results : List TaskResult
  hasBlockingIssues : Bool
  totalTasks : Nat
  reviewCompleted : Bool
  hadAutoReview : Bool
  hadManualReview : Bool
deriving DecidableEq

/-- One iteration of the task loop of TaskOrchestrator.execute from
src/src/task/orchestrator.ts: the task is executed through executeTask,
its result appended, and the summary flags accumulated exactly as in the
source. -/
def executeFoldStep (blockingThreshold : Int) (acc : ExecutionResult)
    (step : TaskStep) : ExecutionResult :=
  let result := executeTask step.task step.outcome step.stateAtFailure
    blockingThreshold
  { acc with
    results := acc.results ++ [result]
    hasBlockingIssues := acc.hasBlockingIssues || 0 < result.blockingIssues
    reviewCompleted := acc.reviewCompleted
      || (step.task.type == TaskType.fullReview && result.success)
    hadAutoReview := acc.hadAutoReview
      || (step.task.type == TaskType.fullReview && result.success
          && step.task.affectsMergeGate)
    hadManualReview := acc.hadManualReview
      || (step.task.type == TaskType.fullReview && result.success
          && !step.task.affectsMergeGate) }

/-- The task loop of TaskOrchestrator.execute from
src/src/task/orchestrator.ts: fold executeFoldStep over the plan. -/
def executeLoop (blockingThreshold : Int) (steps : List TaskStep) :
    ExecutionResult :=
  let init : ExecutionResult :=
    { results := []
      hasBlockingIssues := false
      totalTasks := 0
      reviewCompleted := false
      hadAutoReview := false
      hadManualReview := false }
  let final := steps.foldl (executeFoldStep blockingThreshold) init
  { final with totalTasks := final.results.length }

/-- How waitForPromptCompletion can settle. -/
inductive SessionOutcome
  | completed
  | loopAborted
  | errored
  | timedOut
deriving DecidableEq

/-- The mutable state of one waitForPromptCompletion invocation from
src/unnamed/part_003: the sawBusy flag, whether the idle-grace timer is
armed, the loop-detection window, and the settled outcome if any. -/
structure WaitState where
  sawBusy : Bool
  graceArmed : Bool
  recentToolCalls : List String
  outcome : Option SessionOutcome
deriving DecidableEq

/-- The state at the start of waitForPromptCompletion, after the
loop-detection reset. -/
def initWaitState : WaitState :=
  { sawBusy := false, graceArmed := false, recentToolCalls := []
    outcome := none }

/-- The events observed by the waitForPromptCompletion loop.  Each stream
event carries the session id extracted from props.sessionID or
props.info.sessionID (none when absent); idleGraceExpired is the firing of
the armed idle-grace timer and overallTimeout the firing of the
wall-clock timeout. -/
inductive OcEvent
  | sessionStatus (sessionId : Option String) (statusType : Option String)
  | sessionIdle (sessionId : Option String)
  | messageUpdated (sessionId : Option String)
  | messagePartUpdated (sessionId : Option String) (partType : String)
      (toolSig : String)
  | sessionError (sessionId : Option String)
  | todoUpdated (sessionId : Option String)
  | idleGraceExpired
  | overallTimeout
deriving DecidableEq

/-- One iteration of the waitForPromptCompletion event loop from
src/unnamed/part_003, in source order for each event type: loop detection
on tool parts, busy tracking with grace cancellation on non-idle status,
grace cancellation on message updates, grace arming on idle only when a
busy event was seen, and immediate rejection on session errors.  Once an
outcome is settled every further event is ignored. -/
def waitStep (target : String) (st : WaitState) (ev : OcEvent) : WaitState :=
  if st.outcome.isSome then st
  else
    match ev with
    | OcEvent.idleGraceExpired =>
      if st.graceArmed then { st with outcome := some SessionOutcome.completed }
      else st
    | OcEvent.overallTimeout => { st with outcome := some SessionOutcome.timedOut }
    | OcEvent.sessionStatus sid stype =>
      if sid == some target then
        let busy := stype.isSome && !(stype == some "idle")
        let st1 := if busy then { st with sawBusy := true, graceArmed := false }
          else st
        if stype == some "idle" && st1.sawBusy && !st1.graceArmed then
          { st1 with graceArmed := true }
        else st1
      else st
    | OcEvent.sessionIdle sid =>
      if sid == some target then
        if st.sawBusy && !st.graceArmed then { st with graceArmed := true }
        else st
      else st
    | OcEvent.messageUpdated sid =>
      if sid == some target then { st with graceArmed := false } else st
    | OcEvent.messagePartUpdated sid ptype sig =>
      if sid == some target then
        if ptype == "tool" then
          let s := detectLoopStep st.recentToolCalls sig
          if s.2 then
            { st with recentToolCalls := s.1
                      outcome := some SessionOutcome.loopAborted }
          else { st with recentToolCalls := s.1, graceArmed := false }
        else { st with graceArmed := false }
      else st
    | OcEvent.sessionError sid =>
      if sid == some target then { st with outcome := some SessionOutcome.errored }
      else st
    | OcEvent.todoUpdated _ => st

/-- Run the waitForPromptCompletion event loop over an event trace. -/
def runWait (target : String) (evs : List OcEvent) : WaitState :=
  evs.foldl (waitStep target) initWaitState

/-- Whether an event indicates the target session is busy: a
session.status event for the target session whose status is present and
not idle. -/
def isBusyEvent (target : String) : OcEvent → Bool
  | OcEvent.sessionStatus sid stype =>
    sid == some target && stype.isSome && !(stype == some "idle")
  | _ => false

/-- JavaScript Array.prototype.findIndex, as an optional index. -/
def findIndexB {α : Type} (p : α → Bool) : List α → Option Nat
  | [] => none
  | x :: xs => if p x then some 0 else (findIndexB p xs).map (fun i => i + 1)

/-- The shared upsert shape of StateManager.addThread and
StateManager.recordPassCompletion in src/src/github/state.ts and of the
in-memory mirror in ReviewExecutor.addThread in
src/src/execution/orchestrator.ts: find the first entry with the same
key; replace it in place when found, append otherwise. -/
def upsertByKey {α β : Type} [DecidableEq β] (key : α → β)
    (l : List α) (a : α) : List α :=
  match findIndexB (fun x => key x == key a) l with
  | some i => l.set i a
  | none => l ++ [a]

/-- StateManager.addThread from src/src/github/state.ts (and the identical
in-memory mirror in src/src/execution/orchestrator.ts): upsert keyed by
thread id. -/
def addThread (threads : List ReviewThread) (t : ReviewThread) :
    List ReviewThread :=
  upsertByKey ReviewThread.id threads t

/-- StateManager.recordPassCompletion from src/src/github/state.ts: upsert
keyed by pass number. -/
def recordPassCompletion (passes : List PassResult) (p : PassResult) :
    List PassResult :=
  upsertByKey PassResult.number passes p

/-- C6: counterexample evidence and fix witness.  The first conjunct
evaluates the recorded serializer regex at a status block whose fenced
region lacks the trailing line break before the closing fence: extraction
returns none, contrary to the claim.  The second conjunct shows the
spec-amended regex (trailing newline optional) parses the same block; the
third shows the recorded regex parses once the newline is present, so the
failure is due solely to the missing newline.  The last conjunct shows the
json-assessment codec of src/src/github/state.ts, whose closing fence
allows optional whitespace, already treats the newline as optional. -/
theorem rmcoc_extract_requires_trailing_newline :
  extractRmcocRaw ("```rmcoc\n\x7b\"type\":\"question\"\x7d```".data) = none
  ∧ extractRmcocRawSpec ("```rmcoc\n\x7b\"type\":\"question\"\x7d```".data)
      = some ("\x7b\"type\":\"question\"\x7d".data)
  ∧ extractRmcocRaw ("```rmcoc\n\x7b\"type\":\"question\"\x7d\n```".data)
      = some ("\x7b\"type\":\"question\"\x7d".data)
  ∧ extractJsonRaw ("```json\n\x7b\"finding\":\"x\"\x7d```".data)
      = some ("\x7b\"finding\":\"x\"\x7d".data) := by
  refine ⟨by decide, by decide, by decide, by decide⟩

/-- C7: counterexample.  A developer reply containing a concession phrase
is classified as a concession when the LLM call fails: detectConcession
falls back to the phrase heuristic and returns true, not the claimed
non-concession default false. -/
theorem detectConcession_fallback_true_on_error :
  detectConcession (Except.error "network error".data)
    "agreed, will fix".data = true := by decide

/-- C7 (amended): when the LLM classification call fails, detectConcession
never propagates the error; it returns the local phrase-heuristic fallback
detectConcessionFallback, which yields the non-concession default false
exactly when the lowered reply contains none of the concession phrases. -/
theorem detectConcession_error_uses_fallback :
  ∀ (e body : List Char),
    detectConcession (Except.error e) body = detectConcessionFallback body
    ∧ ((∀ p ∈ concessionPhrases,
          containsSub p (body.map jsToLowerChar) = false) →
        detectConcession (Except.error e) body = false) := by
  intro e body
  refine ⟨rfl, ?_⟩
  intro h
  show detectConcessionFallback body = false
  unfold detectConcessionFallback
  rw [List.any_eq_false]
  intro p hp
  simp [h p hp]

/-- C7 witness: the amended theorem applied at a concrete failed call on a
reply with no concession phrase. -/
theorem detectConcession_error_uses_fallback_witness :
  detectConcession (Except.error "http 500".data)
    "i will not change this".data = false :=
  (detectConcession_error_uses_fallback "http 500".data
    "i will not change this".data).2 (by decide)

/-- C1: counterexample.  getOrCreateState restores a previously cached
state and returns it without re-reading the comment stream: with a
validating cached state and an empty comment history, the cached state is
returned unchanged and differs from the state a rebuild from the comments
would produce, so the state is not obtained solely by re-reading the pull
request comments. -/
theorem getOrCreateState_returns_cached_state :
  getOrCreateState (fun _ => none) 7
      (some { version := 1, prNumber := 7, lastCommitSha := "cafe".data,
              threads := [{ id := 11, file := "a.ts".data, line := 10,
                            status := ThreadStatus.PENDING, score := 8,
                            assessment := { finding := "f".data,
                                            assessment := "a".data,
                                            score := 8 },
                            original_comment := { author := "alice".data,
                                                  body := "b".data,
                                                  timestamp := "t0".data } }],
              passes := [], metadata := { created_at := "2024".data,
                                          updated_at := "2024".data } })
      "beef".data [] "2025".data
    = { version := 1, prNumber := 7, lastCommitSha := "cafe".data,
        threads := [{ id := 11, file := "a.ts".data, line := 10,
                      status := ThreadStatus.PENDING, score := 8,
                      assessment := { finding := "f".data,
                                      assessment := "a".data, score := 8 },
                      original_comment := { author := "alice".data,
                                            body := "b".data,
                                            timestamp := "t0".data } }],
        passes := [], metadata := { created_at := "2024".data,
                                    updated_at := "2024".data } }
  ∧ ¬ ({ version := 1, prNumber := 7, lastCommitSha := "cafe".data,
         threads := [{ id := 11, file := "a.ts".data, line := 10,
                       status := ThreadStatus.PENDING, score := 8,
                       assessment := { finding := "f".data,
                                       assessment := "a".data, score := 8 },
                       original_comment := { author := "alice".data,
                                             body := "b".data,
                                             timestamp := "t0".data } }],
         passes := [], metadata := { created_at := "2024".data,
                                     updated_at := "2024".data } } : ReviewState)
      = rebuildStateFromComments (fun _ => none) 7 "beef".data [] "2025".data
  := by refine ⟨by decide, by decide⟩

/-- C1 (amended): getOrCreateState first attempts to restore the state
saved in the CI cache; when the cached state validates it is returned as
is, without reading the comment stream, and only when the restore yields
nothing (cache miss, parse failure, or validation failure) is the state
rebuilt from the fetched comments. -/
theorem getOrCreateState_cache_first :
  ∀ (pj : List Char → Option Assessment) (cfgPr : Nat) (s : ReviewState)
    (headSha : List Char) (comments : List ReviewComment) (now : List Char),
    (validateState cfgPr s = true →
      getOrCreateState pj cfgPr (some s) headSha comments now = s)
    ∧ getOrCreateState pj cfgPr none headSha comments now
        = rebuildStateFromComments pj cfgPr headSha comments now := by
  intro pj cfgPr s headSha comments now
  constructor
  · intro h
    simp [getOrCreateState, restoreState, h]
  · simp [getOrCreateState, restoreState]

/-- C1 witness: the amended theorem applied at a concrete validating
cached state. -/
theorem getOrCreateState_cache_first_witness :
  getOrCreateState (fun _ => none) 3
      (some { version := 1, prNumber := 3, lastCommitSha := "aa".data,
              threads := [], passes := [],
              metadata := { created_at := "t1".data, updated_at := "t2".data } })
      "bb".data [] "t3".data
    = { version := 1, prNumber := 3, lastCommitSha := "aa".data,
        threads := [], passes := [],
        metadata := { created_at := "t1".data, updated_at := "t2".data } } :=
  (getOrCreateState_cache_first (fun _ => none) 3
    { version := 1, prNumber := 3, lastCommitSha := "aa".data,
      threads := [], passes := [],
      metadata := { created_at := "t1".data, updated_at := "t2".data } }
    "bb".data [] "t3".data).1 (by decide)

/-- C2: counterexample.  Two runs of getOrCreateState over the same (empty)
comment history, both missing the cache, produce different ProcessState
values: the metadata timestamps are taken from the wall clock, a
run-dependent field, so the states are not bit-identical. -/
theorem rebuild_metadata_run_dependent :
  ¬ (getOrCreateState (fun _ => none) 1 none "h".data [] "T1".data
      = getOrCreateState (fun _ => none) 1 none "h".data [] "T2".data) := by
  decide

/-- C2 (amended): reconstruction is deterministic in every content field:
for a fixed comment history, two cache-missing runs of getOrCreateState
agree on threads, passes, pull-request number, last commit sha and
version; the full states, metadata included, are bit-identical exactly
when the two runs read the same wall-clock value. -/
theorem getOrCreateState_rebuild_deterministic_content :
  ∀ (pj : List Char → Option Assessment) (pr : Nat) (sha : List Char)
    (comments : List ReviewComment) (now1 now2 : List Char),
    (getOrCreateState pj pr none sha comments now1).threads
      = (getOrCreateState pj pr none sha comments now2).threads
    ∧ (getOrCreateState pj pr none sha comments now1).passes
      = (getOrCreateState pj pr none sha comments now2).passes
    ∧ (getOrCreateState pj pr none sha comments now1).prNumber
      = (getOrCreateState pj pr none sha comments now2).prNumber
    ∧ (getOrCreateState pj pr none sha comments now1).lastCommitSha
      = (getOrCreateState pj pr none sha comments now2).lastCommitSha
    ∧ (getOrCreateState pj pr none sha comments now1).version
      = (getOrCreateState pj pr none sha comments now2).version
    ∧ (now1 = now2 →
        getOrCreateState pj pr none sha comments now1
          = getOrCreateState pj pr none sha comments now2) := by
  intro pj pr sha comments now1 now2
  refine ⟨?_, ?_, ?_, ?_, ?_, ?_⟩
  · simp [getOrCreateState, restoreState, rebuildStateFromComments]
  · simp [getOrCreateState, restoreState, rebuildStateFromComments]
  · simp [getOrCreateState, restoreState, rebuildStateFromComments]
  · simp [getOrCreateState, restoreState, rebuildStateFromComments]
  · simp [getOrCreateState, restoreState, rebuildStateFromComments]
  · intro h
    rw [h]

/-- C2 witness: the amended theorem applied at a concrete comment history
and equal clock readings. -/
theorem getOrCreateState_rebuild_deterministic_content_witness :
  getOrCreateState (fun _ => none) 1 none "h".data [] "T1".data
    = getOrCreateState (fun _ => none) 1 none "h".data [] "T1".data :=
  (getOrCreateState_rebuild_deterministic_content (fun _ => none) 1
    "h".data [] "T1".data "T1".data).2.2.2.2.2 rfl

theorem executeLoop_foldResults (th : Int) :
    ∀ (steps : List TaskStep) (acc : ExecutionResult),
      (steps.foldl (executeFoldStep th) acc).results
        = acc.results ++ steps.map
            (fun s => executeTask s.task s.outcome s.stateAtFailure th) := by
  intro steps
  induction steps with
  | nil => intro acc; simp
  | cons s ss ih =>
    intro acc
    rw [List.foldl_cons, ih]
    simp [executeFoldStep]

/-- C8: a thrown task error is converted into a failed TaskResult carrying
the active and blocking thread counts of the current executor state, and
the batch always runs to completion: the loop produces exactly one result
per task regardless of failures, so one failing task never prevents the
others from executing. -/
theorem executeLoop_isolates_failures :
  ∀ (blockingThreshold : Int) (steps : List TaskStep),
    (executeLoop blockingThreshold steps).results
      = steps.map
          (fun s => executeTask s.task s.outcome s.stateAtFailure
            blockingThreshold)
    ∧ (executeLoop blockingThreshold steps).totalTasks = steps.length
    ∧ ∀ s ∈ steps, ∀ e, s.outcome = Except.error e →
        executeTask s.task s.outcome s.stateAtFailure blockingThreshold
          = { type := s.task.type
              success := false
              issuesFound := (activeThreadsOf s.stateAtFailure).length
              blockingIssues := ((activeThreadsOf s.stateAtFailure).filter
                (fun t => blockingThreshold ≤ t.score)).length
              error := some e } := by
  intro th steps
  refine ⟨?_, ?_, ?_⟩
  · show (executeLoop th steps).results = _
    unfold executeLoop
    simp [executeLoop_foldResults]
  · unfold executeLoop
    simp [executeLoop_foldResults]
  · intro s _ e he
    simp [executeTask, he]

/-- C8 witness: the theorem applied at a concrete two-task batch whose
first task throws; the batch still yields one result per task and the
failed result carries the counts of the one active (and blocking) thread
of the state visible at failure time. -/
theorem executeLoop_isolates_failures_witness :
  (executeLoop 7
      [{ task := { type := TaskType.disputeResolution, affectsMergeGate := false }
         outcome := Except.error "boom".data
         stateAtFailure := some
           { version := 1, prNumber := 1, lastCommitSha := "h".data
             threads :=
               [{ id := 1, file := "a.ts".data, line := 3
                  status := ThreadStatus.RESOLVED, score := 9
                  assessment := { finding := "f".data, assessment := "a".data,
                                  score := 9 }
                  original_comment := { author := "u".data, body := "b".data,
                                        timestamp := "t".data } },
                { id := 2, file := "b.ts".data, line := 4
                  status := ThreadStatus.PENDING, score := 9
                  assessment := { finding := "g".data, assessment := "c".data,
                                  score := 9 }
                  original_comment := { author := "u".data, body := "d".data,
                                        timestamp := "t".data } }]
             passes := []
             metadata := { created_at := "t".data, updated_at := "t".data } } },
       { task := { type := TaskType.fullReview, affectsMergeGate := true }
         outcome := Except.ok { type := TaskType.fullReview, success := true,
                                issuesFound := 0, blockingIssues := 0,
                                error := none }
         stateAtFailure := none }]).totalTasks = 2
  ∧ executeTask { type := TaskType.disputeResolution, affectsMergeGate := false }
      (Except.error "boom".data)
      (some { version := 1, prNumber := 1, lastCommitSha := "h".data
              threads :=
                [{ id := 1, file := "a.ts".data, line := 3
                   status := ThreadStatus.RESOLVED, score := 9
                   assessment := { finding := "f".data, assessment := "a".data,
                                   score := 9 }
                   original_comment := { author := "u".data, body := "b".data,
                                         timestamp := "t".data } },
                 { id := 2, file := "b.ts".data, line := 4
                   status := ThreadStatus.PENDING, score := 9
                   assessment := { finding := "g".data, assessment := "c".data,
                                   score := 9 }
                   original_comment := { author := "u".data, body := "d".data,
                                         timestamp := "t".data } }]
              passes := []
              metadata := { created_at := "t".data, updated_at := "t".data } })
      7
    = { type := TaskType.disputeResolution, success := false, issuesFound := 1,
        blockingIssues := 1, error := some "boom".data } := by
  constructor
  · exact (executeLoop_isolates_failures 7 _).2.1
  · have h := (executeLoop_isolates_failures 7
      [{ task := { type := TaskType.disputeResolution, affectsMergeGate := false }
         outcome := Except.error "boom".data
         stateAtFailure := some
           { version := 1, prNumber := 1, lastCommitSha := "h".data
             threads :=
               [{ id := 1, file := "a.ts".data, line := 3
                  status := ThreadStatus.RESOLVED, score := 9
                  assessment := { finding := "f".data, assessment := "a".data,
                                  score := 9 }
                  original_comment := { author := "u".data, body := "b".data,
                                        timestamp := "t".data } },
                { id := 2, file := "b.ts".data, line := 4
                  status := ThreadStatus.PENDING, score := 9
                  assessment := { finding := "g".data, assessment := "c".data,
                                  score := 9 }
                  original_comment := { author := "u".data, body := "d".data,
                                        timestamp := "t".data } }]
             passes := []
             metadata := { created_at := "t".data, updated_at := "t".data } } }]).2.2
    have h2 := h _ (List.mem_cons_self _ _) "boom".data rfl
    rw [h2]
    refine congrArg _ ?_
    decide

theorem upsertByKey_nil {α β : Type} [DecidableEq β] (key : α → β) (a : α) :
    upsertByKey key [] a = [a] := rfl

theorem upsertByKey_cons {α β : Type} [DecidableEq β] (key : α → β)
    (x : α) (xs : List α) (a : α) :
    upsertByKey key (x :: xs) a =
      if key x = key a then a :: xs else x :: upsertByKey key xs a := by
  unfold upsertByKey
  by_cases h : key x = key a
  · simp [findIndexB, h]
  · have hb : (key x == key a) = false := beq_eq_false_iff_ne.mpr h
    simp only [findIndexB, hb, if_neg h, Bool.false_eq_true, if_false]
    cases hfi : findIndexB (fun y => key y == key a) xs with
    | none => simp
    | some i => simp

theorem mem_upsertByKey {α β : Type} [DecidableEq β] (key : α → β)
    (l : List α) (a y : α) (hy : y ∈ upsertByKey key l a) :
    y = a ∨ y ∈ l := by
  induction l with
  | nil =>
    rw [upsertByKey_nil] at hy
    simp at hy
    exact Or.inl hy
  | cons x xs ih =>
    rw [upsertByKey_cons] at hy
    by_cases h : key x = key a
    · rw [if_pos h] at hy
      rcases List.mem_cons.mp hy with h1 | h2
      · exact Or.inl h1
      · exact Or.inr (List.mem_cons_of_mem _ h2)
    · rw [if_neg h] at hy
      rcases List.mem_cons.mp hy with h1 | h2
      · exact Or.inr (h1 ▸ List.mem_cons_self _ _)
      · rcases ih h2 with h3 | h4
        · exact Or.inl h3
        · exact Or.inr (List.mem_cons_of_mem _ h4)

theorem upsertByKey_nodup {α β : Type} [DecidableEq β] (key : α → β)
    (l : List α) (a : α) (h : (l.map key).Nodup) :
    ((upsertByKey key l a).map key).Nodup := by
  induction l with
  | nil => simp [upsertByKey_nil]
  | cons x xs ih =>
    rw [List.map_cons, List.nodup_cons] at h
    rw [upsertByKey_cons]
    by_cases hk : key x = key a
    · rw [if_pos hk]
      rw [List.map_cons, List.nodup_cons]
      exact ⟨hk ▸ h.1, h.2⟩
    · rw [if_neg hk]
      rw [List.map_cons, List.nodup_cons]
      refine ⟨?_, ih h.2⟩
      intro hmem
      rcases List.mem_map.mp hmem with ⟨y, hy, hky⟩
      rcases mem_upsertByKey key xs a y hy with rfl | hyxs
      · exact hk hky.symm
      · exact h.1 (hky ▸ List.mem_map_of_mem key hyxs)

theorem upsertByKey_append {α β : Type} [DecidableEq β] (key : α → β)
    (l : List α) (a : α) (h : ∀ x ∈ l, ¬ key x = key a) :
    upsertByKey key l a = l ++ [a] := by
  induction l with
  | nil => simp [upsertByKey_nil]
  | cons x xs ih =>
    rw [upsertByKey_cons, if_neg (h x (List.mem_cons_self _ _))]
    rw [ih (fun y hy => h y (List.mem_cons_of_mem _ hy))]
    simp

theorem upsertByKey_set {α β : Type} [DecidableEq β] (key : α → β)
    (l : List α) (a : α) (h : (l.map key).Nodup) :
    ∀ (j : Nat) (hj : j < l.length), key (l.get ⟨j, hj⟩) = key a →
      upsertByKey key l a = l.set j a := by
  induction l with
  | nil => intro j hj; exact absurd hj (Nat.not_lt_zero j)
  | cons x xs ih =>
    intro j hj hkey
    rw [List.map_cons, List.nodup_cons] at h
    cases j with
    | zero =>
      have hkey0 : key x = key a := hkey
      rw [upsertByKey_cons, if_pos hkey0, List.set_cons_zero]
    | succ i =>
      have hget : key (xs.get ⟨i, Nat.lt_of_succ_lt_succ hj⟩) = key a := hkey
      have hxne : ¬ key x = key a := by
        intro hxa
        apply h.1
        rw [hxa, ← hget]
        exact List.mem_map_of_mem key (List.get_mem xs i _)
      rw [upsertByKey_cons, if_neg hxne, List.set_cons_succ]
      rw [ih h.2 i (Nat.lt_of_succ_lt_succ hj) hget]

/-- C10: addThread and recordPassCompletion are key-preserving upserts.
For thread lists with pairwise-distinct ids, addThread preserves
distinctness; adding a thread whose id is absent appends exactly that one
entry, and adding a thread whose id is already present replaces the
matching entry in place, leaving the length unchanged.  The same holds for
recordPassCompletion keyed by pass number. -/
theorem addThread_recordPass_upsert_invariant :
  (∀ (threads : List ReviewThread) (t : ReviewThread),
    ((threads.map ReviewThread.id).Nodup →
      ((addThread threads t).map ReviewThread.id).Nodup)
    ∧ ((∀ x ∈ threads, ¬ x.id = t.id) → addThread threads t = threads ++ [t])
    ∧ ((threads.map ReviewThread.id).Nodup →
        ∀ (j : Nat) (hj : j < threads.length),
          (threads.get ⟨j, hj⟩).id = t.id →
          addThread threads t = threads.set j t
          ∧ (addThread threads t).length = threads.length))
  ∧ (∀ (passes : List PassResult) (p : PassResult),
    ((passes.map PassResult.number).Nodup →
      ((recordPassCompletion passes p).map PassResult.number).Nodup)
    ∧ ((∀ x ∈ passes, ¬ x.number = p.number) →
        recordPassCompletion passes p = passes ++ [p])
    ∧ ((passes.map PassResult.number).Nodup →
        ∀ (j : Nat) (hj : j < passes.length),
          (passes.get ⟨j, hj⟩).number = p.number →
          recordPassCompletion passes p = passes.set j p
          ∧ (recordPassCompletion passes p).length = passes.length)) := by
  constructor
  · intro threads t
    refine ⟨fun h => upsertByKey_nodup _ _ _ h,
            fun h => upsertByKey_append _ _ _ h, ?_⟩
    intro h j hj hkey
    have hset := upsertByKey_set ReviewThread.id threads t h j hj hkey
    exact ⟨hset, by rw [show addThread threads t = _ from hset, List.length_set]⟩
  · intro passes p
    refine ⟨fun h => upsertByKey_nodup _ _ _ h,
            fun h => upsertByKey_append _ _ _ h, ?_⟩
    intro h j hj hkey
    have hset := upsertByKey_set PassResult.number passes p h j hj hkey
    exact ⟨hset, by rw [show recordPassCompletion passes p = _ from hset,
      List.length_set]⟩

/-- C10 witness: the theorem applied at concrete inputs, replacing an
existing thread in place and appending a pass with a fresh number. -/
theorem addThread_recordPass_upsert_invariant_witness :
  (addThread
      [{ id := 1, file := "a".data, line := 1, status := ThreadStatus.PENDING,
         score := 8, assessment := { finding := "f".data,
                                     assessment := "x".data, score := 8 },
         original_comment := { author := "u".data, body := "b".data,
                               timestamp := "t".data } },
       { id := 2, file := "c".data, line := 2, status := ThreadStatus.DISPUTED,
         score := 7, assessment := { finding := "g".data,
                                     assessment := "y".data, score := 7 },
         original_comment := { author := "v".data, body := "d".data,
                               timestamp := "t".data } }]
      { id := 1, file := "a".data, line := 1, status := ThreadStatus.RESOLVED,
        score := 8, assessment := { finding := "f".data,
                                    assessment := "x".data, score := 8 },
        original_comment := { author := "u".data, body := "b".data,
                              timestamp := "t".data } }).length = 2
  ∧ recordPassCompletion
      [{ number := 1, summary := "s".data, completed := true,
         has_blocking_issues := false }]
      { number := 2, summary := "r".data, completed := true,
        has_blocking_issues := true }
    = [{ number := 1, summary := "s".data, completed := true,
         has_blocking_issues := false },
       { number := 2, summary := "r".data, completed := true,
         has_blocking_issues := true }] :=
  ⟨((addThread_recordPass_upsert_invariant.1 _ _).2.2 (by decide) 0
      (by decide) (by decide)).2,
   (addThread_recordPass_upsert_invariant.2 _ _).2.1 (by decide)⟩

theorem waitStep_preserves_quiet (target : String) (st : WaitState)
    (ev : OcEvent) (hbusy : isBusyEvent target ev = false)
    (hsb : st.sawBusy = false) (hga : st.graceArmed = false)
    (hoc : ¬ st.outcome = some SessionOutcome.completed) :
    (waitStep target st ev).sawBusy = false
    ∧ (waitStep target st ev).graceArmed = false
    ∧ ¬ (waitStep target st ev).outcome = some SessionOutcome.completed := by
  by_cases hsome : st.outcome.isSome = true
  · simp only [waitStep, hsome, if_true]
    exact ⟨hsb, hga, hoc⟩
  · have hsome' : st.outcome.isSome = false := by
      cases h : st.outcome.isSome
      · rfl
      · exact absurd h hsome
    cases ev with
    | sessionStatus sid stype =>
      by_cases hsid : (sid == some target) = true
      · have hb2 : (stype.isSome && !(stype == some "idle")) = false := by
          simp only [isBusyEvent, hsid, Bool.true_and] at hbusy
          exact hbusy
        simp only [waitStep, hsome', Bool.false_eq_true, if_false, hsid,
          if_true, hb2, hsb, Bool.and_false, Bool.false_and, Bool.and_true]
        refine ⟨?_, ?_, ?_⟩ <;> simp_all
      · have hsid' : (sid == some target) = false := by
          cases h : (sid == some target)
          · rfl
          · exact absurd h hsid
        simp only [waitStep, hsome', Bool.false_eq_true, if_false, hsid']
        refine ⟨?_, ?_, ?_⟩ <;> simp_all
    | sessionIdle sid =>
      simp only [waitStep, hsome', Bool.false_eq_true, if_false]
      by_cases hsid : (sid == some target) = true
      · simp only [hsid, if_true, hsb, Bool.false_and, if_false]
        refine ⟨?_, ?_, ?_⟩ <;> simp_all
      · have hsid' : (sid == some target) = false := by
          cases h : (sid == some target)
          · rfl
          · exact absurd h hsid
        simp only [hsid', Bool.false_eq_true, if_false]
        refine ⟨?_, ?_, ?_⟩ <;> simp_all
    | messageUpdated sid =>
      simp only [waitStep, hsome', Bool.false_eq_true, if_false]
      by_cases hsid : (sid == some target) = true
      · simp only [hsid, if_true]
        refine ⟨?_, ?_, ?_⟩ <;> simp_all
      · have hsid' : (sid == some target) = false := by
          cases h : (sid == some target)
          · rfl
          · exact absurd h hsid
        simp only [hsid', Bool.false_eq_true, if_false]
        refine ⟨?_, ?_, ?_⟩ <;> simp_all
    | messagePartUpdated sid ptype sig =>
      simp only [waitStep, hsome', Bool.false_eq_true, if_false]
      by_cases hsid : (sid == some target) = true
      · simp only [hsid, if_true]
        by_cases hpt : (ptype == "tool") = true
        · simp only [hpt, if_true]
          by_cases hloop : (detectLoopStep st.recentToolCalls sig).2 = true
          · simp only [hloop, if_true]
            refine ⟨?_, ?_, ?_⟩ <;> simp_all
          · have hloop' : (detectLoopStep st.recentToolCalls sig).2 = false := by
              cases h : (detectLoopStep st.recentToolCalls sig).2
              · rfl
              · exact absurd h hloop
            simp only [hloop', Bool.false_eq_true, if_false]
            refine ⟨?_, ?_, ?_⟩ <;> simp_all
        · have hpt' : (ptype == "tool") = false := by
            cases h : (ptype == "tool")
            · rfl
            · exact absurd h hpt
          simp only [hpt', Bool.false_eq_true, if_false]
          refine ⟨?_, ?_, ?_⟩ <;> simp_all
      · have hsid' : (sid == some target) = false := by
          cases h : (sid == some target)
          · rfl
          · exact absurd h hsid
        simp only [hsid', Bool.false_eq_true, if_false]
        refine ⟨?_, ?_, ?_⟩ <;> simp_all
    | sessionError sid =>
      simp only [waitStep, hsome', Bool.false_eq_true, if_false]
      by_cases hsid : (sid == some target) = true
      · simp only [hsid, if_true]
        refine ⟨?_, ?_, ?_⟩ <;> simp_all
      · have hsid' : (sid == some target) = false := by
          cases h : (sid == some target)
          · rfl
          · exact absurd h hsid
        simp only [hsid', Bool.false_eq_true, if_false]
        refine ⟨?_, ?_, ?_⟩ <;> simp_all
    | todoUpdated sid =>
      simp only [waitStep, hsome', Bool.false_eq_true, if_false]
      refine ⟨?_, ?_, ?_⟩ <;> simp_all
    | idleGraceExpired =>
      simp only [waitStep, hsome', Bool.false_eq_true, if_false, hga]
      refine ⟨?_, ?_, ?_⟩ <;> simp_all
    | overallTimeout =>
      simp only [waitStep, hsome', Bool.false_eq_true, if_false]
      refine ⟨?_, ?_, ?_⟩ <;> simp_all

theorem runWait_no_busy_not_completed :
    ∀ (evs : List OcEvent) (target : String) (st : WaitState),
      st.sawBusy = false → st.graceArmed = false →
      ¬ st.outcome = some SessionOutcome.completed →
      evs.any (isBusyEvent target) = false →
      ¬ (evs.foldl (waitStep target) st).outcome
          = some SessionOutcome.completed := by
  intro evs
  induction evs with
  | nil =>
    intro target st _ _ hoc _
    exact hoc
  | cons ev rest ih =>
    intro target st hsb hga hoc hany
    rw [List.any_cons, Bool.or_eq_false_iff] at hany
    have hp := waitStep_preserves_quiet target st ev hany.1 hsb hga hoc
    rw [List.foldl_cons]
    exact ih target (waitStep target st ev) hp.1 hp.2.1 hp.2.2 hany.2

/-- C9: waitForPromptCompletion never settles as completed unless a
busy-indicating event for the target session was observed: if the event
loop over a trace ends in the completed outcome, then some event of the
trace was a session.status event for the target session with a present,
non-idle status.  In particular an idle event arriving before any busy
event never arms the idle-grace timer, so a session idle from the start is
never judged complete. -/
theorem waitForPromptCompletion_requires_busy :
  ∀ (target : String) (evs : List OcEvent),
    (runWait target evs).outcome = some SessionOutcome.completed →
    evs.any (isBusyEvent target) = true := by
  intro target evs hc
  by_contra hb
  have hb' : evs.any (isBusyEvent target) = false := by
    cases h : evs.any (isBusyEvent target)
    · rfl
    · exact absurd h hb
  exact runWait_no_busy_not_completed evs target initWaitState rfl rfl
    (by simp [initWaitState]) hb' hc

/-- C9 witness: the theorem applied at a concrete completing trace, whose
completion certifies the presence of a busy event. -/
theorem waitForPromptCompletion_requires_busy_witness :
  (runWait "s"
      [OcEvent.sessionStatus (some "s") (some "busy"),
       OcEvent.sessionIdle (some "s"),
       OcEvent.idleGraceExpired]).outcome = some SessionOutcome.completed
  ∧ ([OcEvent.sessionStatus (some "s") (some "busy"),
      OcEvent.sessionIdle (some "s"),
      OcEvent.idleGraceExpired].any (isBusyEvent "s")) = true :=
  ⟨by decide,
   waitForPromptCompletion_requires_busy "s"
     [OcEvent.sessionStatus (some "s") (some "busy"),
      OcEvent.sessionIdle (some "s"),
      OcEvent.idleGraceExpired] (by decide)⟩

theorem slideWindow_length_le (r : List String) (c : String)
    (h : r.length ≤ LOOP_DETECTION_WINDOW) :
    (slideWindow r c).length ≤ LOOP_DETECTION_WINDOW := by
  simp only [LOOP_DETECTION_WINDOW] at h ⊢
  simp only [slideWindow, LOOP_DETECTION_WINDOW]
  split
  · rename_i hlt
    simp only [List.length_drop, List.length_append, List.length_cons,
      List.length_nil] at *
    omega
  · rename_i hlt
    simp only [List.length_append, List.length_cons, List.length_nil] at *
    omega

theorem slideWindow_eq_drop (r : List String) (c : String)
    (h : r.length ≤ LOOP_DETECTION_WINDOW) :
    slideWindow r c
      = (r ++ [c]).drop ((r ++ [c]).length - LOOP_DETECTION_WINDOW) := by
  simp only [LOOP_DETECTION_WINDOW] at h
  simp only [slideWindow, LOOP_DETECTION_WINDOW]
  split
  · rename_i hlt
    have he : (r ++ [c]).length - 10 = 1 := by
      simp only [List.length_append, List.length_cons, List.length_nil] at hlt ⊢
      omega
    rw [he]
  · rename_i hlt
    have he : (r ++ [c]).length - 10 = 0 := by
      simp only [List.length_append, List.length_cons, List.length_nil] at hlt ⊢
      omega
    rw [he, List.drop_zero]

theorem foldl_slideWindow_eq_drop :
    ∀ (cs : List String) (r : List String),
      r.length ≤ LOOP_DETECTION_WINDOW →
      cs.foldl slideWindow r
        = (r ++ cs).drop ((r ++ cs).length - LOOP_DETECTION_WINDOW) := by
  intro cs
  induction cs with
  | nil =>
    intro r h
    have he : (r ++ []).length - LOOP_DETECTION_WINDOW = 0 := by
      simp only [List.append_nil]
      omega
    rw [he, List.drop_zero, List.append_nil, List.foldl_nil]
  | cons c cs' ih =>
    intro r h
    rw [List.foldl_cons, ih (slideWindow r c) (slideWindow_length_le r c h)]
    rw [slideWindow_eq_drop r c h]
    have hk : (r ++ [c]).length - LOOP_DETECTION_WINDOW ≤ (r ++ [c]).length :=
      Nat.sub_le _ _
    rw [← List.drop_append_of_le_length hk, List.drop_drop]
    have harr : (r ++ [c]) ++ cs' = r ++ c :: cs' := by
      rw [List.append_assoc, List.singleton_append]
    rw [harr]
    refine congrArg (fun n => List.drop n (r ++ c :: cs')) ?_
    simp only [List.length_drop, List.length_append, List.length_cons,
      List.length_nil, LOOP_DETECTION_WINDOW]
    simp only [LOOP_DETECTION_WINDOW] at h
    omega

theorem detectLoopStep_window (r : List String) (c : String) :
    (detectLoopStep r c).1 = slideWindow r c := by
  simp only [detectLoopStep]
  split
  · rfl
  · split
    · rfl
    · split
      · rfl
      · rfl

theorem detectLoopStep_hit_of_count (r : List String) (c s : String)
    (h : MAX_REPEATED_TOOL_CALLS ≤ (slideWindow r c).count s) :
    (detectLoopStep r c).2 = true := by
  have hlen : ¬ ((slideWindow r c).length < MAX_REPEATED_TOOL_CALLS) := by
    have hc := List.count_le_length s (slideWindow r c)
    omega
  have hmem : s ∈ slideWindow r c := by
    rw [← List.count_pos_iff]
    simp only [MAX_REPEATED_TOOL_CALLS] at h
    omega
  have hany : (slideWindow r c).any
      (fun call => MAX_REPEATED_TOOL_CALLS ≤ (slideWindow r c).count call)
      = true := by
    rw [List.any_eq_true]
    exact ⟨s, hmem, by simpa using h⟩
  simp only [detectLoopStep]
  rw [if_neg hlen, if_pos hany]

theorem runDetectLoopFrom_window_bound :
    ∀ (cs : List String) (r : List String),
      (∀ s : String, r.count s < MAX_REPEATED_TOOL_CALLS) →
      runDetectLoopFrom r cs = false →
      ∀ (i : Nat) (s : String),
        ((cs.take i).foldl slideWindow r).count s
          < MAX_REPEATED_TOOL_CALLS := by
  intro cs
  induction cs with
  | nil =>
    intro r hr _ i s
    simp only [List.take_nil, List.foldl_nil]
    exact hr s
  | cons c cs' ih =>
    intro r hr hrun i s
    have hrw : runDetectLoopFrom r (c :: cs')
        = ((detectLoopStep r c).2
            || runDetectLoopFrom (detectLoopStep r c).1 cs') := rfl
    rw [hrw] at hrun
    have hrun' := Bool.or_eq_false_iff.mp hrun
    have hwin : ∀ t : String,
        (slideWindow r c).count t < MAX_REPEATED_TOOL_CALLS := by
      intro t
      by_contra hge
      have hge' : MAX_REPEATED_TOOL_CALLS ≤ (slideWindow r c).count t := by
        omega
      have hhit := detectLoopStep_hit_of_count r c t hge'
      rw [hrun'.1] at hhit
      exact Bool.noConfusion hhit
    cases i with
    | zero =>
      simp only [List.take_zero, List.foldl_nil]
      exact hr s
    | succ j =>
      rw [List.take_succ_cons, List.foldl_cons]
      have h1 : runDetectLoopFrom (slideWindow r c) cs' = false := by
        rw [← detectLoopStep_window r c]
        exact hrun'.2
      exact ih (slideWindow r c) hwin h1 j s

/-- C3 (amended): loop detection triggers whenever 5 identical tool-call
signatures occur within the 10-call sliding window (first conjunct: if at
any point the window - the last 10 of the calls processed so far - holds a
signature 5 or more times, the run aborts).  However, a sequence of 4
identical signatures followed by one distinct signature ALSO triggers
detection (second conjunct), because the secondary rule fires when the 5
most recent calls collapse to at most 2 distinct signatures. -/
theorem detectLoop_five_or_two_distinct :
  (∀ (calls : List String) (i : Nat) (s : String), i ≤ calls.length →
    MAX_REPEATED_TOOL_CALLS
        ≤ ((calls.take i).drop (i - LOOP_DETECTION_WINDOW)).count s →
    runDetectLoop calls = true)
  ∧ (∀ s t : String, ¬ s = t → runDetectLoop [s, s, s, s, t] = true) := by
  constructor
  · intro calls i s hi hcount
    by_contra hfalse
    have hrun : runDetectLoop calls = false := by
      cases h : runDetectLoop calls
      · rfl
      · exact absurd h hfalse
    have hb := runDetectLoopFrom_window_bound calls []
      (fun t => by simp [MAX_REPEATED_TOOL_CALLS]) hrun i s
    rw [foldl_slideWindow_eq_drop (calls.take i) []
      (by simp [LOOP_DETECTION_WINDOW])] at hb
    rw [List.nil_append, List.length_take_of_le hi] at hb
    exact absurd (Nat.lt_of_le_of_lt hcount hb) (Nat.lt_irrefl _)
  · intro s t hst
    have hst' : (s == t) = false := beq_eq_false_iff_ne.mpr hst
    have hts : (t == s) = false := beq_eq_false_iff_ne.mpr (Ne.symm hst)
    simp [runDetectLoop, runDetectLoopFrom, detectLoopStep, slideWindow,
      distinctCount, List.count_cons, hst', hts, hst, Ne.symm hst,
      LOOP_DETECTION_WINDOW, MAX_REPEATED_TOOL_CALLS]

/-- C3 counterexample: the claim asserts that 4 identical signatures
followed by one distinct signature do not trigger detection, but running
detectLoop over exactly that sequence triggers on the fifth call. -/
theorem detectLoop_four_plus_distinct_triggers :
  ¬ (("a" : String) = "b") ∧ runDetectLoop ["a", "a", "a", "a", "b"] = true := by
  refine ⟨by decide, by decide⟩

/-- C3 witness: the amended theorem applied at a concrete run of five
identical signatures (first conjunct) and at a concrete pair of distinct
signatures (second conjunct). -/
theorem detectLoop_five_or_two_distinct_witness :
  runDetectLoop ["x", "x", "x", "x", "x"] = true
  ∧ runDetectLoop ["u", "u", "u", "u", "v"] = true :=
  ⟨detectLoop_five_or_two_distinct.1 ["x", "x", "x", "x", "x"] 5 "x"
      (by decide) (by decide),
   detectLoop_five_or_two_distinct.2 "u" "v" (by decide)⟩

/-- C5: for every question comment carrying no status block of its own,
authored by a non-bot, mentioning the bot outside code spans, and having a
recorded question-answer block (so its id is in the answered set, with
recorded hash h): if the hash of the current question text with bot
mentions removed equals h, no question task is emitted for it; if the
current hash differs from h, a question task is emitted again - the
question is reprocessed as edited - provided the cleaned text is nonempty
and the Intent Classifier classifies it as a question, and the
reprocessed task appears in the detectPendingQuestions output. -/
theorem question_hash_dedup_and_edit :
  ∀ (comments : List IssueComment) (intent : List Char → Intent)
    (c : IssueComment) (h : List Char),
    BOT_USERS.any (fun u => u == c.author) = false →
    containsBotMentionOutsideCodeBlocks c.body = true →
    c.block = none →
    isAnswered comments c.id = true →
    answeredHashFor comments c.id = some h →
    ((hashQuestionText (removeBotMentions c.body) = h →
        shouldEmitQuestion comments intent c = none)
     ∧ (¬ hashQuestionText (removeBotMentions c.body) = h →
        ¬ removeBotMentions c.body = [] →
        intent (removeBotMentions c.body) = Intent.question →
        shouldEmitQuestion comments intent c
          = some { commentId := c.id
                   question := removeBotMentions c.body
                   questionHash := hashQuestionText (removeBotMentions c.body)
                   author := jsOrList (some c.author) "unknown".data }
        ∧ (c ∈ comments →
            { commentId := c.id
              question := removeBotMentions c.body
              questionHash := hashQuestionText (removeBotMentions c.body)
              author := jsOrList (some c.author) "unknown".data : QuestionTask }
              ∈ detectPendingQuestions comments intent))) := by
  intro comments intent c h hbot hgate hblock hans hhash
  constructor
  · intro heq
    simp only [shouldEmitQuestion, hbot, hgate, hblock, hans, hhash,
      isAnsweredQuestionBlock, isManualReviewBlock, heq]
    simp
  · intro hne hnonempty hintent
    have hemit : shouldEmitQuestion comments intent c
        = some { commentId := c.id
                 question := removeBotMentions c.body
                 questionHash := hashQuestionText (removeBotMentions c.body)
                 author := jsOrList (some c.author) "unknown".data } := by
      have hbe : (hashQuestionText (removeBotMentions c.body) == h) = false :=
        beq_eq_false_iff_ne.mpr hne
      have hie : (removeBotMentions c.body).isEmpty = false := by
        cases hl : removeBotMentions c.body
        · exact absurd hl hnonempty
        · rfl
      simp only [shouldEmitQuestion, hbot, hgate, hblock, hans, hhash,
        isAnsweredQuestionBlock, isManualReviewBlock, hbe, hie, hintent]
      simp
    refine ⟨hemit, fun hc => ?_⟩
    unfold detectPendingQuestions
    exact List.mem_filterMap.mpr ⟨c, hc, hemit⟩

set_option maxRecDepth 100000 in
/-- C5 witness: the theorem applied at two concrete comment histories.  In
the first the question text is unchanged since the recorded answer (equal
hash), and no task is emitted; in the second the question was edited
(different hash), and the question task is emitted again and appears in
the detection output. -/
theorem question_hash_dedup_and_edit_witness :
  shouldEmitQuestion
      [{ id := 1, author := "alice".data,
         body := "@rmc-bot what does this do".data, block := none },
       { id := 2, author := "github-actions[bot]".data,
         body := "the answer".data,
         block := some (RmcocBlock.questionAnswer (some 1)
           (some (hashQuestionText
             (removeBotMentions "@rmc-bot what does this do".data)))) }]
      (fun _ => Intent.question)
      { id := 1, author := "alice".data,
        body := "@rmc-bot what does this do".data, block := none }
    = none
  ∧ ({ commentId := 1
       question := removeBotMentions "@rmc-bot a new question".data
       questionHash :=
         hashQuestionText (removeBotMentions "@rmc-bot a new question".data)
       author := jsOrList (some "alice".data) "unknown".data : QuestionTask }
      ∈ detectPendingQuestions
        [{ id := 1, author := "alice".data,
           body := "@rmc-bot a new question".data, block := none },
         { id := 2, author := "github-actions[bot]".data,
           body := "the answer".data,
           block := some (RmcocBlock.questionAnswer (some 1)
             (some (hashQuestionText
               (removeBotMentions "@rmc-bot the old question".data)))) }]
        (fun _ => Intent.question)) :=
  ⟨(question_hash_dedup_and_edit
      [{ id := 1, author := "alice".data,
         body := "@rmc-bot what does this do".data, block := none },
       { id := 2, author := "github-actions[bot]".data,
         body := "the answer".data,
         block := some (RmcocBlock.questionAnswer (some 1)
           (some (hashQuestionText
             (removeBotMentions "@rmc-bot what does this do".data)))) }]
      (fun _ => Intent.question)
      { id := 1, author := "alice".data,
        body := "@rmc-bot what does this do".data, block := none }
      (hashQuestionText
        (removeBotMentions "@rmc-bot what does this do".data))
      (by decide) (by decide) rfl (by decide) (by decide)).1 rfl,
   ((question_hash_dedup_and_edit
      [{ id := 1, author := "alice".data,
         body := "@rmc-bot a new question".data, block := none },
       { id := 2, author := "github-actions[bot]".data,
         body := "the answer".data,
         block := some (RmcocBlock.questionAnswer (some 1)
           (some (hashQuestionText
             (removeBotMentions "@rmc-bot the old question".data)))) }]
      (fun _ => Intent.question)
      { id := 1, author := "alice".data,
        body := "@rmc-bot a new question".data, block := none }
      (hashQuestionText
        (removeBotMentions "@rmc-bot the old question".data))
      (by decide) (by decide) rfl (by decide) (by decide)).2
      (by decide) (by decide) rfl).2 (by decide)⟩

theorem isFenceAt_false_head (x : Char) (xs : List Char) (hx : ¬ x = btick) :
    isFenceAt (x :: xs) = false := by
  cases xs with
  | nil => rfl
  | cons b ys =>
    cases ys with
    | nil => rfl
    | cons c zs =>
      simp only [isFenceAt, beq_eq_false_iff_ne.mpr hx, Bool.false_and]

theorem fenceJump_none (x : Char) (xs : List Char) (hx : ¬ x = btick) :
    fenceJump x xs = none := by
  simp only [fenceJump, isFenceAt_false_head x xs hx, Bool.false_eq_true,
    if_false]

theorem findClose_length_le :
    ∀ (l r : List Char), findClose l = some r → r.length ≤ l.length := by
  intro l
  induction l with
  | nil =>
    intro r h
    exact absurd h (by simp [findClose])
  | cons x xs ih =>
    intro r h
    simp only [findClose] at h
    split at h
    · cases h
      simp only [List.length_drop, List.length_cons]
      omega
    · have := ih r h
      simp only [List.length_cons]
      omega

theorem fenceJump_length_le (x : Char) (xs r : List Char)
    (h : fenceJump x xs = some r) : r.length ≤ xs.length := by
  simp only [fenceJump] at h
  split at h
  · have h1 := findClose_length_le _ _ h
    simp only [List.length_drop] at h1
    omega
  · exact absurd h (by simp)

theorem removeFencedAux_fuelIrrel :
    ∀ (f1 : Nat) (l : List Char) (f2 : Nat),
      l.length ≤ f1 → l.length ≤ f2 →
      removeFencedAux f1 l = removeFencedAux f2 l := by
  intro f1
  induction f1 with
  | zero =>
    intro l f2 h1 _
    have hl : l = [] := List.length_eq_zero.mp (Nat.le_zero.mp h1)
    subst hl
    cases f2 <;> rfl
  | succ n ih =>
    intro l f2 h1 h2
    cases l with
    | nil => cases f2 <;> rfl
    | cons x xs =>
      cases f2 with
      | zero =>
        simp only [List.length_cons] at h2
        omega
      | succ m =>
        simp only [List.length_cons] at h1 h2
        cases hj : fenceJump x xs with
        | some rem =>
          have hr := fenceJump_length_le x xs rem hj
          simp only [removeFencedAux, hj]
          exact ih rem m (by omega) (by omega)
        | none =>
          simp only [removeFencedAux, hj]
          rw [ih xs m (by omega) (by omega)]

theorem removeFencedAux_copy :
    ∀ (pre : List Char) (fuel : Nat) (rest : List Char),
      btick ∉ pre →
      removeFencedAux (pre.length + fuel) (pre ++ rest)
        = pre ++ removeFencedAux fuel rest := by
  intro pre
  induction pre with
  | nil =>
    intro fuel rest _
    simp
  | cons x pre' ih =>
    intro fuel rest hmem
    have hx : ¬ x = btick := fun hxe => hmem (hxe ▸ List.mem_cons_self _ _)
    have harith : (x :: pre').length + fuel = (pre'.length + fuel) + 1 := by
      simp only [List.length_cons]
      omega
    rw [harith, List.cons_append]
    simp only [removeFencedAux, fenceJump_none x (pre' ++ rest) hx]
    rw [ih fuel rest (fun hm => hmem (List.mem_cons_of_mem _ hm))]
    rfl

theorem removeFenced_bfree (l : List Char) (h : btick ∉ l) :
    removeFenced l = l := by
  have hc := removeFencedAux_copy l 0 [] h
  simp only [List.append_nil] at hc
  rw [removeFenced]
  rw [show l.length = l.length + 0 from rfl]
  rw [hc, show removeFencedAux 0 ([] : List Char) = [] from rfl,
    List.append_nil]

theorem findClose_eat :
    ∀ (mid post : List Char), btick ∉ mid →
      findClose (mid ++ (fence3 ++ post)) = some post := by
  intro mid
  induction mid with
  | nil =>
    intro post _
    simp [findClose, isFenceAt, fence3]
  | cons m mid' ih =>
    intro post hmem
    have hm : ¬ m = btick := fun he => hmem (he ▸ List.mem_cons_self _ _)
    simp only [List.cons_append, findClose,
      isFenceAt_false_head m _ hm, Bool.false_eq_true, if_false]
    exact ih post (fun hm2 => hmem (List.mem_cons_of_mem _ hm2))

theorem removeFenced_block (pre mid post : List Char)
    (hpre : btick ∉ pre) (hmid : btick ∉ mid) (hpost : btick ∉ post) :
    removeFenced (pre ++ (fence3 ++ (mid ++ (fence3 ++ post))))
      = pre ++ post := by
  rw [removeFenced]
  rw [show (pre ++ (fence3 ++ (mid ++ (fence3 ++ post)))).length
      = pre.length + (fence3 ++ (mid ++ (fence3 ++ post))).length by simp]
  rw [removeFencedAux_copy pre _ _ hpre]
  refine congrArg (fun l => pre ++ l) ?_
  have hshape : fence3 ++ (mid ++ (fence3 ++ post))
      = btick :: btick :: btick :: (mid ++ (fence3 ++ post)) := by
    simp [fence3]
  have hlen3 : (fence3 ++ (mid ++ (fence3 ++ post))).length
      = (mid ++ (fence3 ++ post)).length + 3 := by
    simp [fence3]
  rw [hlen3, hshape]
  have hj : fenceJump btick (btick :: btick :: (mid ++ (fence3 ++ post)))
      = some post := by
    simp only [fenceJump]
    rw [if_pos (by simp [isFenceAt])]
    simp only [List.drop_succ_cons, List.drop_zero]
    exact findClose_eat mid post hmid
  have hstep : removeFencedAux ((mid ++ (fence3 ++ post)).length + 3)
      (btick :: btick :: btick :: (mid ++ (fence3 ++ post)))
      = removeFencedAux ((mid ++ (fence3 ++ post)).length + 2) post := by
    simp only [removeFencedAux, hj]
  rw [hstep]
  rw [removeFencedAux_fuelIrrel _ post post.length
    (by simp [fence3]; omega) (Nat.le_refl _)]
  have hid := removeFenced_bfree post hpost
  rw [removeFenced] at hid
  exact hid

theorem inlineJump_length_le (xs r : List Char)
    (h : inlineJump xs = some r) : r.length ≤ xs.length := by
  simp only [inlineJump] at h
  split at h
  · exact absurd h (by simp)
  · cases h
    have hsplit := congrArg List.length
      (List.takeWhile_append_dropWhile (p := notBtick) (l := xs))
    simp only [List.length_append] at hsplit
    simp only [List.length_drop]
    omega

theorem removeInlineAux_fuelIrrel :
    ∀ (f1 : Nat) (l : List Char) (f2 : Nat),
      l.length ≤ f1 → l.length ≤ f2 →
      removeInlineAux f1 l = removeInlineAux f2 l := by
  intro f1
  induction f1 with
  | zero =>
    intro l f2 h1 _
    have hl : l = [] := List.length_eq_zero.mp (Nat.le_zero.mp h1)
    subst hl
    cases f2 <;> rfl
  | succ n ih =>
    intro l f2 h1 h2
    cases l with
    | nil => cases f2 <;> rfl
    | cons x xs =>
      cases f2 with
      | zero =>
        simp only [List.length_cons] at h2
        omega
      | succ m =>
        simp only [List.length_cons] at h1 h2
        by_cases hx : (x == btick) = true
        · cases hj : inlineJump xs with
          | some rem =>
            have hr := inlineJump_length_le xs rem hj
            simp only [removeInlineAux, hx, if_true, hj]
            exact ih rem m (by omega) (by omega)
          | none =>
            simp only [removeInlineAux, hx, if_true, hj]
            rw [ih xs m (by omega) (by omega)]
        · have hx' : (x == btick) = false := by
            cases hh : (x == btick)
            · rfl
            · exact absurd hh hx
          simp only [removeInlineAux, hx', Bool.false_eq_true, if_false]
          rw [ih xs m (by omega) (by omega)]

theorem removeInlineAux_copy :
    ∀ (pre : List Char) (fuel : Nat) (rest : List Char),
      btick ∉ pre →
      removeInlineAux (pre.length + fuel) (pre ++ rest)
        = pre ++ removeInlineAux fuel rest := by
  intro pre
  induction pre with
  | nil =>
    intro fuel rest _
    simp
  | cons x pre' ih =>
    intro fuel rest hmem
    have hx : ¬ x = btick := fun hxe => hmem (hxe ▸ List.mem_cons_self _ _)
    have harith : (x :: pre').length + fuel = (pre'.length + fuel) + 1 := by
      simp only [List.length_cons]
      omega
    rw [harith, List.cons_append]
    simp only [removeInlineAux, beq_eq_false_iff_ne.mpr hx,
      Bool.false_eq_true, if_false]
    rw [ih fuel rest (fun hm => hmem (List.mem_cons_of_mem _ hm))]
    rfl

theorem removeInline_bfree (l : List Char) (h : btick ∉ l) :
    removeInline l = l := by
  have hc := removeInlineAux_copy l 0 [] h
  simp only [List.append_nil] at hc
  rw [removeInline]
  rw [show l.length = l.length + 0 from rfl]
  rw [hc, show removeInlineAux 0 ([] : List Char) = [] from rfl,
    List.append_nil]

theorem takeWhile_notBtick_split :
    ∀ (mid rest' : List Char), btick ∉ mid →
      (mid ++ btick :: rest').takeWhile notBtick = mid
      ∧ (mid ++ btick :: rest').dropWhile notBtick = btick :: rest' := by
  intro mid
  induction mid with
  | nil =>
    intro rest' _
    constructor
    · simp [List.takeWhile_cons, notBtick]
    · simp [List.dropWhile_cons, notBtick]
  | cons m mid' ih =>
    intro rest' hmem
    have hm : ¬ m = btick := fun he => hmem (he ▸ List.mem_cons_self _ _)
    have hnb : notBtick m = true := by
      simp [notBtick, beq_eq_false_iff_ne.mpr hm]
    have ih' := ih rest' (fun hm2 => hmem (List.mem_cons_of_mem _ hm2))
    constructor
    · simp [List.takeWhile_cons, hnb, ih'.1]
    · simp [List.dropWhile_cons, hnb, ih'.2]

theorem removeInline_span (pre mid post : List Char)
    (hpre : btick ∉ pre) (hmid : btick ∉ mid) (hpost : btick ∉ post)
    (hne : ¬ mid = []) :
    removeInline (pre ++ (btick :: (mid ++ (btick :: post))))
      = pre ++ post := by
  rw [removeInline]
  rw [show (pre ++ (btick :: (mid ++ (btick :: post)))).length
      = pre.length + (btick :: (mid ++ (btick :: post))).length by simp]
  rw [removeInlineAux_copy pre _ _ hpre]
  refine congrArg (fun l => pre ++ l) ?_
  have hYlen : (btick :: (mid ++ (btick :: post))).length
      = (mid ++ (btick :: post)).length + 1 := by simp
  rw [hYlen]
  have hsp := takeWhile_notBtick_split mid post hmid
  have hmide : mid.isEmpty = false := by
    cases hm : mid
    · exact absurd hm hne
    · rfl
  have hjump : inlineJump (mid ++ (btick :: post)) = some post := by
    simp only [inlineJump, hsp.1, hsp.2, hmide, List.isEmpty_cons,
      Bool.or_self, Bool.false_eq_true, if_false, List.drop_succ_cons,
      List.drop_zero]
  simp only [removeInlineAux, beq_self_eq_true, if_true, hjump]
  rw [removeInlineAux_fuelIrrel _ post post.length
    (by simp; omega) (Nat.le_refl _)]
  have hid := removeInline_bfree post hpost
  rw [removeInline] at hid
  exact hid

theorem isFenceAt_btick_cons_false (rest : List Char) (h : btick ∉ rest) :
    isFenceAt (btick :: rest) = false := by
  cases rest with
  | nil => rfl
  | cons p ps =>
    have hp : ¬ p = btick := fun he => h (he ▸ List.mem_cons_self _ _)
    cases ps with
    | nil => rfl
    | cons q qs =>
      simp [isFenceAt, beq_eq_false_iff_ne.mpr hp]

theorem isFenceAt_second_false (a b : Char) (xs : List Char)
    (hb : ¬ b = btick) : isFenceAt (a :: b :: xs) = false := by
  cases xs with
  | nil => rfl
  | cons c zs =>
    simp [isFenceAt, beq_eq_false_iff_ne.mpr hb]

theorem removeFencedAux_btick_head (Y : List Char) (fuel : Nat)
    (hfa : isFenceAt (btick :: Y) = false) :
    removeFencedAux (fuel + 1) (btick :: Y)
      = btick :: removeFencedAux fuel Y := by
  simp only [removeFencedAux, fenceJump, hfa, Bool.false_eq_true, if_false]

theorem removeFenced_single_bticks (pre mid post : List Char)
    (hpre : btick ∉ pre) (hmid : btick ∉ mid) (hpost : btick ∉ post)
    (hne : ¬ mid = []) :
    removeFenced (pre ++ (btick :: (mid ++ (btick :: post))))
      = pre ++ (btick :: (mid ++ (btick :: post))) := by
  obtain ⟨m, mid', rfl⟩ : ∃ m mid', mid = m :: mid' := by
    cases hm : mid
    · exact absurd hm hne
    · exact ⟨_, _, rfl⟩
  have hm : ¬ m = btick := fun he => hmid (he ▸ List.mem_cons_self _ _)
  rw [removeFenced]
  rw [show (pre ++ (btick :: ((m :: mid') ++ (btick :: post)))).length
      = pre.length + (btick :: ((m :: mid') ++ (btick :: post))).length
      by simp]
  rw [removeFencedAux_copy pre _ _ hpre]
  refine congrArg (fun l => pre ++ l) ?_
  rw [show (btick :: ((m :: mid') ++ (btick :: post))).length
      = ((m :: mid') ++ (btick :: post)).length + 1 by simp]
  rw [removeFencedAux_btick_head ((m :: mid') ++ (btick :: post)) _
    (isFenceAt_second_false btick m (mid' ++ (btick :: post)) hm)]
  refine congrArg (fun l => btick :: l) ?_
  rw [show ((m :: mid') ++ (btick :: post)).length
      = (m :: mid').length + (btick :: post).length from List.length_append _ _]
  rw [removeFencedAux_copy (m :: mid') _ _ hmid]
  refine congrArg (fun l => (m :: mid') ++ l) ?_
  rw [show (btick :: post).length = post.length + 1 by simp]
  rw [removeFencedAux_btick_head post _
    (isFenceAt_btick_cons_false post hpost)]
  refine congrArg (fun l => btick :: l) ?_
  have hid := removeFenced_bfree post hpost
  rw [removeFenced] at hid
  exact hid

theorem containsBotMention_bfree (body : List Char) (h : btick ∉ body) :
    containsBotMentionOutsideCodeBlocks body
      = BOT_MENTIONS.any (fun m => containsSub m body) := by
  unfold containsBotMentionOutsideCodeBlocks
  rw [removeFenced_bfree body h, removeInline_bfree body h]

/-- C4: counterexample.  In the body built as "@rmc" ++ fence ++
"@rmc-bot" ++ fence ++ "-bot", the only occurrence of any bot mention is
the short mention at index 7, strictly inside the fenced code block (the
block content spans indices 7 through 14); yet question detection
triggers, because removing the fenced block concatenates the surrounding
text "@rmc" and "-bot" into a mention.  So a bot mention appearing only
inside a fenced code block can trigger detection. -/
theorem botMention_only_inside_fence_triggers :
  containsBotMentionOutsideCodeBlocks ("@rmc```@rmc-bot```-bot".data) = true
  ∧ occurrenceIdxs botMention ("@rmc```@rmc-bot```-bot".data) = []
  ∧ occurrenceIdxs botMentionShort ("@rmc```@rmc-bot```-bot".data) = [7]
  ∧ "@rmc```@rmc-bot```-bot".data
      = "@rmc".data ++ (fence3 ++ ("@rmc-bot".data ++ (fence3 ++ "-bot".data)))
  ∧ ("@rmc".data ++ fence3).length = 7
  ∧ 7 + botMentionShort.length = ("@rmc".data ++ fence3).length
      + "@rmc-bot".data.length := by
  refine ⟨by decide, by decide, by decide, by decide, by decide, by decide⟩

/-- C4 (amended): code-span filtering holds as long as stripping the code
spans does not splice the surrounding text into a mention.  First
conjunct: for a body made of backtick-free text around one fenced code
block, if no mention occurs in the concatenation of the text before and
after the block, detection does not trigger, wherever the mention occurs
inside the block.  Second conjunct: the same for a single inline code
span.  Third conjunct: a mention in a backtick-free body (hence outside
any code span) does trigger detection.  The splice proviso is necessary by
the counterexample: removal concatenates the surrounding text, which can
assemble a mention that never occurred outside the block. -/
theorem botMention_code_span_filtering :
  (∀ pre mid post : List Char,
     btick ∉ pre → btick ∉ mid → btick ∉ post →
     (∀ m ∈ BOT_MENTIONS, containsSub m (pre ++ post) = false) →
     containsBotMentionOutsideCodeBlocks
       (pre ++ (fence3 ++ (mid ++ (fence3 ++ post)))) = false)
  ∧ (∀ pre mid post : List Char,
     btick ∉ pre → btick ∉ mid → btick ∉ post → ¬ mid = [] →
     (∀ m ∈ BOT_MENTIONS, containsSub m (pre ++ post) = false) →
     containsBotMentionOutsideCodeBlocks
       (pre ++ (btick :: (mid ++ (btick :: post)))) = false)
  ∧ (∀ body : List Char, btick ∉ body →
     BOT_MENTIONS.any (fun m => containsSub m body) = true →
     containsBotMentionOutsideCodeBlocks body = true) := by
  refine ⟨?_, ?_, ?_⟩
  · intro pre mid post hpre hmid hpost hnone
    unfold containsBotMentionOutsideCodeBlocks
    rw [removeFenced_block pre mid post hpre hmid hpost]
    rw [removeInline_bfree (pre ++ post) (by
      intro hmem
      rcases List.mem_append.mp hmem with h1 | h2
      · exact hpre h1
      · exact hpost h2)]
    rw [List.any_eq_false]
    intro m hm
    simp [hnone m hm]
  · intro pre mid post hpre hmid hpost hne hnone
    unfold containsBotMentionOutsideCodeBlocks
    rw [removeFenced_single_bticks pre mid post hpre hmid hpost hne]
    rw [removeInline_span pre mid post hpre hmid hpost hne]
    rw [List.any_eq_false]
    intro m hm
    simp [hnone m hm]
  · intro body hb hany
    rw [containsBotMention_bfree body hb]
    exact hany

/-- C4 witness: the amended theorem applied at concrete bodies.  A mention
inside a fenced block with non-splicing surroundings does not trigger; a
mention inside an inline code span does not trigger; the same mention in
plain text triggers. -/
theorem botMention_code_span_filtering_witness :
  containsBotMentionOutsideCodeBlocks
      ("hi ".data ++ (fence3 ++ ("@rmc-bot".data ++ (fence3 ++ " ok".data))))
    = false
  ∧ containsBotMentionOutsideCodeBlocks
      ("hi ".data ++ (btick :: ("@rmc-bot".data ++ (btick :: " ok".data))))
    = false
  ∧ containsBotMentionOutsideCodeBlocks "hello @rmc-bot ok".data = true :=
  ⟨botMention_code_span_filtering.1 "hi ".data "@rmc-bot".data " ok".data
     (by decide) (by decide) (by decide) (by decide),
   botMention_code_span_filtering.2.1 "hi ".data "@rmc-bot".data " ok".data
     (by decide) (by decide) (by decide) (by decide) (by decide),
   botMention_code_span_filtering.2.2 "hello @rmc-bot ok".data
     (by decide) (by decide)⟩
